import Mathlib

/-!
Verification of the "Wolf" scorekeeping application's core logic
(rotation resolver and scoring engines), shallowly embedded from
`src/assets/app.js`.

The source file contains two snapshots of the scoring engine:
an older pooled-pot engine (POINTS_UNIT = 6, "sixths" units) and a
newer all-pairs transfer engine (POINTS_UNIT = 1, whole units).
Both are embedded below, the newer one in namespace `Engine`, the
older one in namespace `OldEngine`.
-/

namespace Wolf

/-- A player record: `{ id, name }` as created at game setup. -/
structure Player where
  id : String
  name : String
deriving Repr, DecidableEq

/-- The possible values of a hole's `result` field (`'WOLF' | 'OTHER' | 'TIE'`),
`null` being represented by `Option.none` at the use site. -/
inductive HoleResult where
  | WOLF
  | OTHER
  | TIE
deriving Repr, DecidableEq

/-- One hole (round) record: `{ partnerId|null, loneWolf, result, blind }`.
A missing record (`g.holes[i] ?? {}`) is the all-default record. -/
structure Hole where
  partnerId : Option String := none
  loneWolf : Bool := false
  result : Option HoleResult := none
  blind : Bool := false
deriving Repr, DecidableEq

instance : Inhabited Hole := ⟨{}⟩

/-- The rule toggles held in `g.options`. -/
structure Options where
  pushTies : Bool
  blindWolf : Bool
deriving Repr, DecidableEq

/-- The part of the game state the engines read:
`{ players, holeCount, holes, options }`. -/
structure Game where
  players : List Player
  holeCount : Nat
  holes : List Hole
  options : Options

/-- The ordered list of player ids, `g.players.map(p => p.id)`. -/
def Game.playerIds (g : Game) : List String :=
  g.players.map Player.id

/-- `rotatedOrderForHole`: right rotation of the player-id list so that the
role holder ("Wolf") sits last; `cut = (n - holeIndex % n) % n`, result
`base.slice(cut).concat(base.slice(0, cut))`. -/
def rotatedOrderForHole (ids : List String) (holeIndex : Nat) : List String :=
  let n := ids.length
  let offset := holeIndex % n
  let cut := (n - offset) % n
  ids.drop cut ++ ids.take cut

/-- `wolfIdForHole`: the last element of the rotated order,
`order[order.length - 1]` (defaulting to `""` on an empty roster,
which the callers never supply). -/
def wolfIdForHole (ids : List String) (holeIndex : Nat) : String :=
  (rotatedOrderForHole ids holeIndex).getLast?.getD ""

/-- Pointwise update of a total map (a JS object keyed by player id,
absent keys reading as 0). -/
def upd (f : String → Int) (k : String) (v : Int) : String → Int :=
  fun q => if q = k then v else f q

namespace Engine

/-- `POINTS_UNIT = 1` — the newer engine uses integer scoring only. -/
def POINTS_UNIT : Int := 1

/-- Status of a per-hole breakdown entry. -/
inductive HoleStatus where
  | NOT_SCORED
  | TIE
  | WOLF_WIN
  | OTHER_WIN
deriving Repr, DecidableEq

/-- One entry of `perHole`: `{ hole, status, statusLabel, deltaByPlayer }`.
The delta map is total with default 0, mirroring `deltaByPlayer[pid] ?? 0`. -/
structure HoleEntry where
  hole : Nat
  status : HoleStatus
  statusLabel : String
  delta : String → Int

instance : Inhabited HoleEntry := ⟨⟨0, .NOT_SCORED, "", fun _ => 0⟩⟩

/-- The mutable accumulators closed over by `applyDelta`:
the per-hole delta map plus the running `totals`, `won`, `lost`. -/
structure DeltaAcc where
  delta : String → Int
  totals : String → Int
  won : String → Int
  lost : String → Int

/-- `applyDelta(deltaByPlayer, pid, deltaUnits)`: skip when zero, otherwise
add to the hole's delta map and the running totals; positive amounts feed
`won`, negative ones feed `lost` (by magnitude). -/
def applyDelta (acc : DeltaAcc) (pid : String) (deltaUnits : Int) : DeltaAcc :=
  if deltaUnits = 0 then acc
  else
    { delta := upd acc.delta pid (acc.delta pid + deltaUnits)
      totals := upd acc.totals pid (acc.totals pid + deltaUnits)
      won := if 0 < deltaUnits then upd acc.won pid (acc.won pid + deltaUnits) else acc.won
      lost := if deltaUnits < 0 then upd acc.lost pid (acc.lost pid + (-deltaUnits)) else acc.lost }

/-- `pids.forEach(pid => applyDelta(deltaByPlayer, pid, deltaUnits))`. -/
def applyAll (acc : DeltaAcc) (pids : List String) (deltaUnits : Int) : DeltaAcc :=
  pids.foldl (fun a pid => applyDelta a pid deltaUnits) acc

/-- The state threaded through the per-hole loop of `computeScores`. -/
structure EngineState where
  totals : String → Int
  won : String → Int
  lost : String → Int
  perHole : List HoleEntry
  carry : Nat

/-- `baseWagerPerPlayer = 1 + (isBlind ? 1 : 0)` where
`isBlind = !!(g.options?.blindWolf && h.blind)`. -/
def baseWagerPerPlayerFor (g : Game) (h : Hole) : Nat :=
  1 + (if g.options.blindWolf && h.blind then 1 else 0)

/-- `wagerPerPlayer = (g.options?.pushTies ? carryPerPlayer : 0) + baseWagerPerPlayer`. -/
def wagerPerPlayerFor (g : Game) (h : Hole) (carry : Nat) : Nat :=
  (if g.options.pushTies then carry else 0) + baseWagerPerPlayerFor g h

/-- `wagerUnits = wagerPerPlayer * POINTS_UNIT`. -/
def wagerUnitsFor (g : Game) (h : Hole) (carry : Nat) : Int :=
  (wagerPerPlayerFor g h carry : Int) * POINTS_UNIT

/-- The all-pairs settlement of a decisive hole: every winner receives
`wagerUnits` from every loser, recorded via `applyDelta`, and a breakdown
entry is appended. `carry2` is the carry value after the hole. -/
def settleHole (st : EngineState) (i : Nat) (r : HoleResult) (wagerUnits : Int)
    (carry2 : Nat) (winners losers : List String) (statusLabel : String) : EngineState :=
  let acc0 : DeltaAcc := ⟨fun _ => 0, st.totals, st.won, st.lost⟩
  let acc1 := applyAll acc0 winners (wagerUnits * losers.length)
  let acc2 := applyAll acc1 losers (-(wagerUnits * winners.length))
  { totals := acc2.totals
    won := acc2.won
    lost := acc2.lost
    perHole := st.perHole ++
      [⟨i + 1, (if r = .WOLF then .WOLF_WIN else .OTHER_WIN), statusLabel, acc2.delta⟩]
    carry := carry2 }

/-- A `NOT_SCORED` breakdown entry for hole index `i` (all-zero deltas). -/
def notScoredEntry (i : Nat) : HoleEntry :=
  ⟨i + 1, .NOT_SCORED, "Not scored", fun _ => 0⟩

/-- A `TIE` breakdown entry for hole index `i` (all-zero deltas). -/
def tieEntry (i : Nat) : HoleEntry :=
  ⟨i + 1, .TIE, "Tie", fun _ => 0⟩

/-- The body of the per-hole loop of the newer `computeScores`
(src/assets/app.js lines 980-1088), acting on the running state. -/
def scoreHole (g : Game) (i : Nat) (st : EngineState) : EngineState :=
  let h := g.holes.getD i {}
  let order := rotatedOrderForHole g.playerIds i
  let wolfId := order.getLast?.getD ""
  let others := order.dropLast
  match h.result with
  | none =>
      { st with perHole := st.perHole ++ [notScoredEntry i] }
  | some .TIE =>
      { st with
        carry := if g.options.pushTies then st.carry + 1 else st.carry
        perHole := st.perHole ++ [tieEntry i] }
  | some r =>
      let wagerUnits := wagerUnitsFor g h st.carry
      let carry2 := if g.options.pushTies then 0 else st.carry
      if h.loneWolf then
        if r = .WOLF then
          settleHole st i r wagerUnits carry2 [wolfId] others "Lone Wolf wins"
        else
          settleHole st i r wagerUnits carry2 others [wolfId] "Little Piggie win"
      else
        match h.partnerId with
        | none =>
            { st with carry := carry2, perHole := st.perHole ++ [notScoredEntry i] }
        | some partnerId =>
            if partnerId = wolfId then
              { st with carry := carry2, perHole := st.perHole ++ [notScoredEntry i] }
            else
              let wolfTeam := [wolfId, partnerId]
              let otherTeam := order.filter (fun pid => !wolfTeam.contains pid)
              if r = .WOLF then
                settleHole st i r wagerUnits carry2 wolfTeam otherTeam "Wolf Pack wins"
              else
                settleHole st i r wagerUnits carry2 otherTeam wolfTeam "Little Piggies win"

/-- The initial loop state: all totals zero, no breakdown, zero carry. -/
def initState : EngineState :=
  ⟨fun _ => 0, fun _ => 0, fun _ => 0, [], 0⟩

/-- The state after the first `k` holes have been processed. -/
def runHoles (g : Game) : Nat → EngineState
  | 0 => initState
  | k + 1 => scoreHole g k (runHoles g k)

/-- The engine's return value:
`{ totals, won, lost, holesScoredCount, perHole }`. -/
structure ScoreSummary where
  totals : String → Int
  won : String → Int
  lost : String → Int
  holesScoredCount : Nat
  perHole : List HoleEntry

/-- The newer `computeScores` (all-pairs transfer engine),
src/assets/app.js lines 962-1099. -/
def computeScores (g : Game) : ScoreSummary :=
  let st := runHoles g g.holeCount
  { totals := st.totals
    won := st.won
    lost := st.lost
    holesScoredCount := (st.perHole.filter (fun e => e.status != .NOT_SCORED)).length
    perHole := st.perHole }

end Engine

namespace OldEngine

/-- `POINTS_UNIT = 6` — the older engine stores points as sixths. -/
def POINTS_UNIT : Nat := 6

/-- One entry of the older engine's breakdown:
`{ hole, mult, pushCount, desc }`. -/
structure OldHoleEntry where
  hole : Nat
  mult : Nat
  pushCount : Nat
  desc : String
deriving Repr, DecidableEq

/-- The state threaded through the per-hole loop of the older `computeScores`. -/
structure OldState where
  totals : String → Int
  perHole : List OldHoleEntry
  pushCount : Nat

/-- The body of the per-hole loop of the older pooled-pot `computeScores`
(src/assets/app.js lines 169-265). -/
def scoreHole (g : Game) (i : Nat) (st : OldState) : OldState :=
  let h := g.holes.getD i {}
  let order := rotatedOrderForHole g.playerIds i
  let wolfId := order.getLast?.getD ""
  let others := order.dropLast
  let baseMult := if g.options.pushTies then st.pushCount + 1 else 1
  let blindMult := if g.options.blindWolf && h.blind then 2 else 1
  let mult := baseMult * blindMult
  let multUnits : Int := (mult * POINTS_UNIT : Nat)
  match h.result with
  | none =>
      { st with perHole := st.perHole ++ [⟨i + 1, mult, st.pushCount, "Not scored"⟩] }
  | some .TIE =>
      { st with
        pushCount := if g.options.pushTies then st.pushCount + 1 else st.pushCount
        perHole := st.perHole ++ [⟨i + 1, mult, st.pushCount, "Tie"⟩] }
  | some r =>
      let pushCount2 := if g.options.pushTies then 0 else st.pushCount
      if h.loneWolf then
        let k := others.length
        let swingUnits : Int := (k : Int) * 1 * multUnits
        if r = .WOLF then
          let t1 := upd st.totals wolfId (st.totals wolfId + swingUnits)
          let t2 := others.foldl (fun t pid => upd t pid (t pid - 1 * multUnits)) t1
          { st with
            pushCount := pushCount2
            totals := t2
            perHole := st.perHole ++
              [⟨i + 1, mult, 0, "Lone Wolf win (+" ++ toString k ++ " each)"⟩] }
        else
          let t1 := upd st.totals wolfId (st.totals wolfId - swingUnits)
          let t2 := others.foldl (fun t pid => upd t pid (t pid + 1 * multUnits)) t1
          { st with
            pushCount := pushCount2
            totals := t2
            perHole := st.perHole ++
              [⟨i + 1, mult, 0, "Lone Wolf loss (-" ++ toString k ++ " each)"⟩] }
      else
        match h.partnerId with
        | none =>
            { st with
              perHole := st.perHole ++ [⟨i + 1, mult, 0, "Invalid partner (not scored)"⟩]
              pushCount := pushCount2 }
        | some partnerId =>
            if partnerId = wolfId then
              { st with
                perHole := st.perHole ++ [⟨i + 1, mult, 0, "Invalid partner (not scored)"⟩]
                pushCount := pushCount2 }
            else
              let wolfTeam := [wolfId, partnerId]
              let otherTeam := order.filter (fun pid => !wolfTeam.contains pid)
              let winners := if r = .WOLF then wolfTeam else otherTeam
              let losers := if r = .WOLF then otherTeam else wolfTeam
              let potUnits : Int := (losers.length : Int) * 1 * multUnits
              let shareUnits : Int := potUnits / winners.length
              let remainder : Int := potUnits - shareUnits * winners.length
              let afterLosers : String → Int :=
                losers.foldl (fun t pid => upd t pid (t pid - 1 * multUnits)) st.totals
              let afterWinners : String → Int :=
                (winners.enum.foldl
                  (fun t ip =>
                    upd t ip.2 (t ip.2 + shareUnits + (if ip.1 = 0 then remainder else 0)))
                  afterLosers)
              let winLabel := if r = .WOLF then "Wolf Team win" else "Other Team win"
              { st with
                pushCount := pushCount2
                totals := afterWinners
                perHole := st.perHole ++
                  [⟨i + 1, mult, 0, winLabel ++ " (pot " ++ toString losers.length ++ ")"⟩] }

/-- The state after the first `k` holes under the older engine. -/
def runHoles (g : Game) : Nat → OldState
  | 0 => ⟨fun _ => 0, [], 0⟩
  | k + 1 => scoreHole g k (runHoles g k)

/-- The older pooled-pot `computeScores` (src/assets/app.js lines 163-268):
returns `{ totals, perHole }`, totals in sixth-units. -/
def computeScores (g : Game) : (String → Int) × List OldHoleEntry :=
  let st := runHoles g g.holeCount
  (st.totals, st.perHole)

end OldEngine

/-- The expected per-player delta map of an all-pairs settlement:
each winner credits `wagerUnits` from each loser, each loser debits
`wagerUnits` to each winner (specification-side description). -/
def settleDelta (wagerUnits : Int) (winners losers : List String) : String → Int :=
  fun q =>
    if q ∈ winners then wagerUnits * losers.length
    else if q ∈ losers then -(wagerUnits * winners.length) else 0

/-- A standard four-player roster (ids `p1`-`p4`; round 0 makes `p4` the Wolf). -/
def players4 : List Player :=
  [⟨"p1", "A"⟩, ⟨"p2", "B"⟩, ⟨"p3", "C"⟩, ⟨"p4", "D"⟩]

/-- The id list of `players4`. -/
def wolfIds4 : List String := ["p1", "p2", "p3", "p4"]

/-- Four players, one team hole: Wolf `p4` picks partner `p1`, Wolf team wins. -/
def gameTeamWin : Game :=
  { players := players4
    holeCount := 1
    holes := [{ partnerId := some "p1", result := some .WOLF }]
    options := { pushTies := false, blindWolf := false } }

/-- Four players, one lone-wolf hole lost by the Wolf (`OTHER` wins). -/
def gameLoneLoss : Game :=
  { players := players4
    holeCount := 1
    holes := [{ loneWolf := true, result := some .OTHER }]
    options := { pushTies := false, blindWolf := false } }

/-- Push-ties game: a tie, then a decisive team hole with no partner chosen,
then a decisive lone-wolf hole. Exercises the invalid-partner interaction
with the tie carry. -/
def gameCarryInvalid : Game :=
  { players := players4
    holeCount := 3
    holes := [{ result := some .TIE },
              { result := some .WOLF },
              { loneWolf := true, result := some .WOLF }]
    options := { pushTies := true, blindWolf := false } }

/-- Push-ties game: two ties followed by a decisive lone-wolf hole. -/
def gameTwoTies : Game :=
  { players := players4
    holeCount := 3
    holes := [{ result := some .TIE },
              { result := some .TIE },
              { loneWolf := true, result := some .WOLF }]
    options := { pushTies := true, blindWolf := false } }

/-- Blind-wolf game violating the blind-implies-solo invariant:
the hole has `blind = true` but `loneWolf = false` and partner `p1`. -/
def gameBlindTeamA : Game :=
  { players := players4
    holeCount := 1
    holes := [{ partnerId := some "p1", result := some .WOLF, blind := true }]
    options := { pushTies := false, blindWolf := true } }

/-- Same as `gameBlindTeamA` with partner `p2` instead of `p1`. -/
def gameBlindTeamB : Game :=
  { players := players4
    holeCount := 1
    holes := [{ partnerId := some "p2", result := some .WOLF, blind := true }]
    options := { pushTies := false, blindWolf := true } }

/-- `g` extended by `k` additional empty (null-outcome) holes, with the hole
count raised to match. -/
def extendGame (g : Game) (k : Nat) : Game :=
  { g with holeCount := g.holeCount + k, holes := g.holes ++ List.replicate k {} }

end Wolf

namespace Wolf

namespace Engine

lemma applyDelta_delta_ne (acc : DeltaAcc) (pid : String) (du : Int) (q : String)
    (h : q ≠ pid) : (applyDelta acc pid du).delta q = acc.delta q := by
  unfold applyDelta upd
  split <;> simp [h]

lemma applyDelta_totals_ne (acc : DeltaAcc) (pid : String) (du : Int) (q : String)
    (h : q ≠ pid) : (applyDelta acc pid du).totals q = acc.totals q := by
  unfold applyDelta upd
  split <;> simp [h]

lemma applyDelta_won_ne (acc : DeltaAcc) (pid : String) (du : Int) (q : String)
    (h : q ≠ pid) : (applyDelta acc pid du).won q = acc.won q := by
  unfold applyDelta upd
  split
  · rfl
  · split <;> simp [h]

lemma applyDelta_lost_ne (acc : DeltaAcc) (pid : String) (du : Int) (q : String)
    (h : q ≠ pid) : (applyDelta acc pid du).lost q = acc.lost q := by
  unfold applyDelta upd
  split
  · rfl
  · dsimp only
    split <;> simp [h]

lemma applyDelta_delta_self (acc : DeltaAcc) (pid : String) (du : Int) :
    (applyDelta acc pid du).delta pid = acc.delta pid + du := by
  unfold applyDelta upd
  split <;> simp_all

lemma applyDelta_totals_self (acc : DeltaAcc) (pid : String) (du : Int) :
    (applyDelta acc pid du).totals pid = acc.totals pid + du := by
  unfold applyDelta upd
  split <;> simp_all

lemma applyDelta_won_self (acc : DeltaAcc) (pid : String) (du : Int) :
    (applyDelta acc pid du).won pid = acc.won pid + (if 0 < du then du else 0) := by
  unfold applyDelta upd
  split
  · simp_all
  · split <;> simp

lemma applyDelta_lost_self (acc : DeltaAcc) (pid : String) (du : Int) :
    (applyDelta acc pid du).lost pid = acc.lost pid + (if du < 0 then -du else 0) := by
  unfold applyDelta upd
  split
  · simp_all
  · dsimp only
    split <;> simp

lemma applyAll_nil (acc : DeltaAcc) (du : Int) : applyAll acc [] du = acc := rfl

lemma applyAll_cons (acc : DeltaAcc) (p : String) (ps : List String) (du : Int) :
    applyAll acc (p :: ps) du = applyAll (applyDelta acc p du) ps du := rfl

lemma applyAll_delta_not_mem (acc : DeltaAcc) (pids : List String) (du : Int) (q : String)
    (h : q ∉ pids) : (applyAll acc pids du).delta q = acc.delta q := by
  induction pids generalizing acc with
  | nil => rfl
  | cons p ps ih =>
      rw [applyAll_cons]
      rw [ih _ (List.not_mem_of_not_mem_cons h),
        applyDelta_delta_ne _ _ _ _ (List.ne_of_not_mem_cons h)]

lemma applyAll_totals_not_mem (acc : DeltaAcc) (pids : List String) (du : Int) (q : String)
    (h : q ∉ pids) : (applyAll acc pids du).totals q = acc.totals q := by
  induction pids generalizing acc with
  | nil => rfl
  | cons p ps ih =>
      rw [applyAll_cons]
      rw [ih _ (List.not_mem_of_not_mem_cons h),
        applyDelta_totals_ne _ _ _ _ (List.ne_of_not_mem_cons h)]

lemma applyAll_won_not_mem (acc : DeltaAcc) (pids : List String) (du : Int) (q : String)
    (h : q ∉ pids) : (applyAll acc pids du).won q = acc.won q := by
  induction pids generalizing acc with
  | nil => rfl
  | cons p ps ih =>
      rw [applyAll_cons]
      rw [ih _ (List.not_mem_of_not_mem_cons h),
        applyDelta_won_ne _ _ _ _ (List.ne_of_not_mem_cons h)]

lemma applyAll_lost_not_mem (acc : DeltaAcc) (pids : List String) (du : Int) (q : String)
    (h : q ∉ pids) : (applyAll acc pids du).lost q = acc.lost q := by
  induction pids generalizing acc with
  | nil => rfl
  | cons p ps ih =>
      rw [applyAll_cons]
      rw [ih _ (List.not_mem_of_not_mem_cons h),
        applyDelta_lost_ne _ _ _ _ (List.ne_of_not_mem_cons h)]

lemma applyAll_delta_mem (acc : DeltaAcc) (pids : List String) (du : Int) (q : String)
    (hnd : pids.Nodup) (h : q ∈ pids) :
    (applyAll acc pids du).delta q = acc.delta q + du := by
  induction pids generalizing acc with
  | nil => cases h
  | cons p ps ih =>
      rw [applyAll_cons]
      rcases List.mem_cons.1 h with rfl | hq
      · rw [applyAll_delta_not_mem _ _ _ _ (List.nodup_cons.1 hnd).1,
          applyDelta_delta_self]
      · rw [ih _ (List.nodup_cons.1 hnd).2 hq,
          applyDelta_delta_ne _ _ _ _ (by rintro rfl; exact (List.nodup_cons.1 hnd).1 hq)]

lemma applyAll_totals_mem (acc : DeltaAcc) (pids : List String) (du : Int) (q : String)
    (hnd : pids.Nodup) (h : q ∈ pids) :
    (applyAll acc pids du).totals q = acc.totals q + du := by
  induction pids generalizing acc with
  | nil => cases h
  | cons p ps ih =>
      rw [applyAll_cons]
      rcases List.mem_cons.1 h with rfl | hq
      · rw [applyAll_totals_not_mem _ _ _ _ (List.nodup_cons.1 hnd).1,
          applyDelta_totals_self]
      · rw [ih _ (List.nodup_cons.1 hnd).2 hq,
          applyDelta_totals_ne _ _ _ _ (by rintro rfl; exact (List.nodup_cons.1 hnd).1 hq)]

lemma applyAll_won_mem (acc : DeltaAcc) (pids : List String) (du : Int) (q : String)
    (hnd : pids.Nodup) (h : q ∈ pids) :
    (applyAll acc pids du).won q = acc.won q + (if 0 < du then du else 0) := by
  induction pids generalizing acc with
  | nil => cases h
  | cons p ps ih =>
      rw [applyAll_cons]
      rcases List.mem_cons.1 h with rfl | hq
      · rw [applyAll_won_not_mem _ _ _ _ (List.nodup_cons.1 hnd).1,
          applyDelta_won_self]
      · rw [ih _ (List.nodup_cons.1 hnd).2 hq,
          applyDelta_won_ne _ _ _ _ (by rintro rfl; exact (List.nodup_cons.1 hnd).1 hq)]

lemma applyAll_lost_mem (acc : DeltaAcc) (pids : List String) (du : Int) (q : String)
    (hnd : pids.Nodup) (h : q ∈ pids) :
    (applyAll acc pids du).lost q = acc.lost q + (if du < 0 then -du else 0) := by
  induction pids generalizing acc with
  | nil => cases h
  | cons p ps ih =>
      rw [applyAll_cons]
      rcases List.mem_cons.1 h with rfl | hq
      · rw [applyAll_lost_not_mem _ _ _ _ (List.nodup_cons.1 hnd).1,
          applyDelta_lost_self]
      · rw [ih _ (List.nodup_cons.1 hnd).2 hq,
          applyDelta_lost_ne _ _ _ _ (by rintro rfl; exact (List.nodup_cons.1 hnd).1 hq)]

lemma settleHole_spec (st : EngineState) (i : Nat) (r : HoleResult) (wU : Int)
    (c2 : Nat) (W L : List String) (lab : String)
    (hW : W.Nodup) (hL : L.Nodup) (hdisj : ∀ q, q ∈ W → q ∉ L) :
    (settleHole st i r wU c2 W L lab).carry = c2 ∧
    (settleHole st i r wU c2 W L lab).perHole = st.perHole ++
      [⟨i + 1, (if r = .WOLF then .WOLF_WIN else .OTHER_WIN), lab, settleDelta wU W L⟩] ∧
    (∀ q, (settleHole st i r wU c2 W L lab).totals q = st.totals q + settleDelta wU W L q) ∧
    (∀ q, (settleHole st i r wU c2 W L lab).won q =
      st.won q + (if 0 < settleDelta wU W L q then settleDelta wU W L q else 0)) ∧
    (∀ q, (settleHole st i r wU c2 W L lab).lost q =
      st.lost q + (if settleDelta wU W L q < 0 then -(settleDelta wU W L q) else 0)) := by
  have hdelta : ∀ q,
      (applyAll (applyAll ⟨fun _ => 0, st.totals, st.won, st.lost⟩ W (wU * L.length))
        L (-(wU * W.length))).delta q = settleDelta wU W L q := by
    intro q
    by_cases hqW : q ∈ W
    · rw [applyAll_delta_not_mem _ _ _ _ (hdisj q hqW), applyAll_delta_mem _ _ _ _ hW hqW]
      simp [settleDelta, hqW]
    · by_cases hqL : q ∈ L
      · rw [applyAll_delta_mem _ _ _ _ hL hqL, applyAll_delta_not_mem _ _ _ _ hqW]
        simp [settleDelta, hqW, hqL]
      · rw [applyAll_delta_not_mem _ _ _ _ hqL, applyAll_delta_not_mem _ _ _ _ hqW]
        simp [settleDelta, hqW, hqL]
  have htotals : ∀ q,
      (applyAll (applyAll ⟨fun _ => 0, st.totals, st.won, st.lost⟩ W (wU * L.length))
        L (-(wU * W.length))).totals q = st.totals q + settleDelta wU W L q := by
    intro q
    by_cases hqW : q ∈ W
    · rw [applyAll_totals_not_mem _ _ _ _ (hdisj q hqW), applyAll_totals_mem _ _ _ _ hW hqW]
      simp [settleDelta, hqW]
    · by_cases hqL : q ∈ L
      · rw [applyAll_totals_mem _ _ _ _ hL hqL, applyAll_totals_not_mem _ _ _ _ hqW]
        simp [settleDelta, hqW, hqL]
      · rw [applyAll_totals_not_mem _ _ _ _ hqL, applyAll_totals_not_mem _ _ _ _ hqW]
        simp [settleDelta, hqW, hqL]
  have hwon : ∀ q,
      (applyAll (applyAll ⟨fun _ => 0, st.totals, st.won, st.lost⟩ W (wU * L.length))
        L (-(wU * W.length))).won q =
      st.won q + (if 0 < settleDelta wU W L q then settleDelta wU W L q else 0) := by
    intro q
    by_cases hqW : q ∈ W
    · rw [applyAll_won_not_mem _ _ _ _ (hdisj q hqW), applyAll_won_mem _ _ _ _ hW hqW]
      simp [settleDelta, hqW]
    · by_cases hqL : q ∈ L
      · rw [applyAll_won_mem _ _ _ _ hL hqL, applyAll_won_not_mem _ _ _ _ hqW]
        simp [settleDelta, hqW, hqL]
      · rw [applyAll_won_not_mem _ _ _ _ hqL, applyAll_won_not_mem _ _ _ _ hqW]
        simp [settleDelta, hqW, hqL]
  have hlost : ∀ q,
      (applyAll (applyAll ⟨fun _ => 0, st.totals, st.won, st.lost⟩ W (wU * L.length))
        L (-(wU * W.length))).lost q =
      st.lost q + (if settleDelta wU W L q < 0 then -(settleDelta wU W L q) else 0) := by
    intro q
    by_cases hqW : q ∈ W
    · rw [applyAll_lost_not_mem _ _ _ _ (hdisj q hqW), applyAll_lost_mem _ _ _ _ hW hqW]
      simp [settleDelta, hqW]
    · by_cases hqL : q ∈ L
      · rw [applyAll_lost_mem _ _ _ _ hL hqL, applyAll_lost_not_mem _ _ _ _ hqW]
        simp [settleDelta, hqW, hqL]
      · rw [applyAll_lost_not_mem _ _ _ _ hqL, applyAll_lost_not_mem _ _ _ _ hqW]
        simp [settleDelta, hqW, hqL]
  have h2 : (applyAll (applyAll ⟨fun _ => 0, st.totals, st.won, st.lost⟩ W (wU * L.length))
      L (-(wU * W.length))).delta = settleDelta wU W L := funext hdelta
  unfold settleHole
  refine ⟨rfl, ?_, htotals, hwon, hlost⟩
  dsimp only
  rw [h2]

lemma scoreHole_result_none (g : Game) (i : Nat) (st : EngineState)
    (h : (g.holes.getD i {}).result = none) :
    scoreHole g i st = { st with perHole := st.perHole ++ [notScoredEntry i] } := by
  simp only [scoreHole, h]

lemma scoreHole_result_tie (g : Game) (i : Nat) (st : EngineState)
    (h : (g.holes.getD i {}).result = some .TIE) :
    scoreHole g i st = { st with
      carry := if g.options.pushTies then st.carry + 1 else st.carry
      perHole := st.perHole ++ [tieEntry i] } := by
  simp only [scoreHole, h]

lemma scoreHole_lone (g : Game) (i : Nat) (st : EngineState) (r : HoleResult)
    (h : (g.holes.getD i {}).result = some r) (hr : r ≠ .TIE)
    (hl : (g.holes.getD i {}).loneWolf = true) :
    scoreHole g i st =
      if r = .WOLF then
        settleHole st i r (wagerUnitsFor g (g.holes.getD i {}) st.carry)
          (if g.options.pushTies then 0 else st.carry)
          [wolfIdForHole g.playerIds i] (rotatedOrderForHole g.playerIds i).dropLast
          "Lone Wolf wins"
      else
        settleHole st i r (wagerUnitsFor g (g.holes.getD i {}) st.carry)
          (if g.options.pushTies then 0 else st.carry)
          (rotatedOrderForHole g.playerIds i).dropLast [wolfIdForHole g.playerIds i]
          "Little Piggie win" := by
  cases r with
  | TIE => exact absurd rfl hr
  | WOLF =>
      simp only [scoreHole, h, hl, wolfIdForHole, eq_self_iff_true, if_true]
  | OTHER =>
      simp only [scoreHole, h, hl, wolfIdForHole, if_true,
        if_neg (by decide : ¬(HoleResult.OTHER = HoleResult.WOLF))]

lemma scoreHole_invalid_none (g : Game) (i : Nat) (st : EngineState) (r : HoleResult)
    (h : (g.holes.getD i {}).result = some r) (hr : r ≠ .TIE)
    (hl : (g.holes.getD i {}).loneWolf = false)
    (hp : (g.holes.getD i {}).partnerId = none) :
    scoreHole g i st = { st with
      carry := if g.options.pushTies then 0 else st.carry
      perHole := st.perHole ++ [notScoredEntry i] } := by
  cases r with
  | TIE => exact absurd rfl hr
  | WOLF => simp only [scoreHole, h, hl, hp, Bool.false_eq_true, if_false]
  | OTHER => simp only [scoreHole, h, hl, hp, Bool.false_eq_true, if_false]

lemma scoreHole_invalid_wolf (g : Game) (i : Nat) (st : EngineState) (r : HoleResult)
    (h : (g.holes.getD i {}).result = some r) (hr : r ≠ .TIE)
    (hl : (g.holes.getD i {}).loneWolf = false)
    (hp : (g.holes.getD i {}).partnerId = some (wolfIdForHole g.playerIds i)) :
    scoreHole g i st = { st with
      carry := if g.options.pushTies then 0 else st.carry
      perHole := st.perHole ++ [notScoredEntry i] } := by
  have hp' : (g.holes.getD i {}).partnerId =
      some ((rotatedOrderForHole g.playerIds i).getLast?.getD "") := hp
  cases r with
  | TIE => exact absurd rfl hr
  | WOLF =>
      simp only [scoreHole, h, hl, hp', Bool.false_eq_true, if_false,
        eq_self_iff_true, if_true]
  | OTHER =>
      simp only [scoreHole, h, hl, hp', Bool.false_eq_true, if_false,
        eq_self_iff_true, if_true]

lemma scoreHole_team (g : Game) (i : Nat) (st : EngineState) (r : HoleResult) (p : String)
    (h : (g.holes.getD i {}).result = some r) (hr : r ≠ .TIE)
    (hl : (g.holes.getD i {}).loneWolf = false)
    (hp : (g.holes.getD i {}).partnerId = some p)
    (hpw : p ≠ wolfIdForHole g.playerIds i) :
    scoreHole g i st =
      if r = .WOLF then
        settleHole st i r (wagerUnitsFor g (g.holes.getD i {}) st.carry)
          (if g.options.pushTies then 0 else st.carry)
          [wolfIdForHole g.playerIds i, p]
          ((rotatedOrderForHole g.playerIds i).filter
            (fun pid => !([wolfIdForHole g.playerIds i, p]).contains pid))
          "Wolf Pack wins"
      else
        settleHole st i r (wagerUnitsFor g (g.holes.getD i {}) st.carry)
          (if g.options.pushTies then 0 else st.carry)
          ((rotatedOrderForHole g.playerIds i).filter
            (fun pid => !([wolfIdForHole g.playerIds i, p]).contains pid))
          [wolfIdForHole g.playerIds i, p]
          "Little Piggies win" := by
  rw [wolfIdForHole] at hpw
  cases r with
  | TIE => exact absurd rfl hr
  | WOLF =>
      simp only [scoreHole, h, hl, hp, wolfIdForHole, Bool.false_eq_true, if_false,
        if_neg hpw, eq_self_iff_true, if_true]
  | OTHER =>
      simp only [scoreHole, h, hl, hp, wolfIdForHole, Bool.false_eq_true, if_false,
        if_neg hpw, if_true, if_neg (by decide : ¬(HoleResult.OTHER = HoleResult.WOLF))]

end Engine


lemma rotatedOrderForHole_perm (ids : List String) (i : Nat) :
    (rotatedOrderForHole ids i).Perm ids := by
  simp only [rotatedOrderForHole]
  refine List.perm_append_comm.trans ?_
  rw [List.take_append_drop]

lemma rotatedOrderForHole_length (ids : List String) (i : Nat) :
    (rotatedOrderForHole ids i).length = ids.length :=
  (rotatedOrderForHole_perm ids i).length_eq

lemma rotatedOrderForHole_nodup (ids : List String) (i : Nat) (h : ids.Nodup) :
    (rotatedOrderForHole ids i).Nodup :=
  ((rotatedOrderForHole_perm ids i).nodup_iff).2 h

lemma mem_rotatedOrderForHole (ids : List String) (i : Nat) (q : String) :
    q ∈ rotatedOrderForHole ids i ↔ q ∈ ids :=
  (rotatedOrderForHole_perm ids i).mem_iff

lemma rotatedOrderForHole_add_length (ids : List String) (i : Nat) :
    rotatedOrderForHole ids (i + ids.length) = rotatedOrderForHole ids i := by
  simp only [rotatedOrderForHole]
  rw [Nat.add_mod_right]

lemma wolfIdForHole_eq_getD (ids : List String) (i : Nat) (h : ids ≠ []) :
    wolfIdForHole ids i = ids.getD (ids.length - 1 - i % ids.length) "" := by
  have hn : 0 < ids.length := List.length_pos.2 h
  have hoff : i % ids.length < ids.length := Nat.mod_lt _ hn
  simp only [wolfIdForHole, rotatedOrderForHole]
  rw [List.getLast?_eq_getElem?]
  have hlen : (ids.drop ((ids.length - i % ids.length) % ids.length) ++
      ids.take ((ids.length - i % ids.length) % ids.length)).length = ids.length := by
    rw [List.length_append, List.length_drop, List.length_take]
    omega
  rw [hlen]
  rcases Nat.eq_zero_or_pos (i % ids.length) with hz | hpos
  · have hcut : (ids.length - i % ids.length) % ids.length = 0 := by
      rw [hz, Nat.sub_zero, Nat.mod_self]
    rw [hcut, List.drop_zero, List.take_zero, List.append_nil, hz, Nat.sub_zero]
    rw [List.getD_eq_getD_get?, List.get?_eq_getElem?]
  · have hcut : (ids.length - i % ids.length) % ids.length = ids.length - i % ids.length := by
      apply Nat.mod_eq_of_lt
      omega
    rw [hcut]
    have hdroplen : (ids.drop (ids.length - i % ids.length)).length = i % ids.length := by
      rw [List.length_drop]
      omega
    rw [List.getElem?_append_right (by omega), hdroplen, List.getElem?_take,
      if_pos (by omega)]
    rw [List.getD_eq_getD_get?, List.get?_eq_getElem?]

lemma wolfIdForHole_add_length (ids : List String) (i : Nat) :
    wolfIdForHole ids (i + ids.length) = wolfIdForHole ids i := by
  unfold wolfIdForHole
  rw [rotatedOrderForHole_add_length]

lemma wolfIdForHole_inj (ids : List String) (hnd : ids.Nodup) (j k : Nat)
    (hlt : j < k) (hwin : k - j < ids.length) :
    wolfIdForHole ids j ≠ wolfIdForHole ids k := by
  have hn : 0 < ids.length := lt_of_le_of_lt (Nat.zero_le _) hwin
  have hne : ids ≠ [] := List.length_pos.1 hn
  rw [wolfIdForHole_eq_getD _ _ hne, wolfIdForHole_eq_getD _ _ hne]
  intro heq
  have hj : j % ids.length < ids.length := Nat.mod_lt _ hn
  have hk : k % ids.length < ids.length := Nat.mod_lt _ hn
  have ha : ids.length - 1 - j % ids.length < ids.length := by omega
  have hb : ids.length - 1 - k % ids.length < ids.length := by omega
  rw [List.getD_eq_getElem _ _ ha, List.getD_eq_getElem _ _ hb] at heq
  have hidx : ids.length - 1 - j % ids.length = ids.length - 1 - k % ids.length :=
    (List.Nodup.getElem_inj_iff hnd).1 heq
  have hmod : j % ids.length = k % ids.length := by omega
  have hdvd : ids.length ∣ k - j := (Nat.modEq_iff_dvd' (le_of_lt hlt)).1 hmod
  have := Nat.le_of_dvd (by omega) hdvd
  omega

lemma order_eq_dropLast_append (ids : List String) (i : Nat) (h : ids ≠ []) :
    (rotatedOrderForHole ids i).dropLast ++ [wolfIdForHole ids i] =
      rotatedOrderForHole ids i := by
  have hord : rotatedOrderForHole ids i ≠ [] := by
    intro he
    have hl := rotatedOrderForHole_length ids i
    rw [he] at hl
    exact h (List.length_eq_zero.1 hl.symm)
  unfold wolfIdForHole
  rw [List.getLast?_eq_getLast_of_ne_nil hord, Option.getD_some]
  exact List.dropLast_append_getLast hord

lemma wolfId_mem_order (ids : List String) (i : Nat) (h : ids ≠ []) :
    wolfIdForHole ids i ∈ rotatedOrderForHole ids i := by
  rw [← order_eq_dropLast_append ids i h]
  exact List.mem_append_right _ (List.mem_singleton.2 rfl)

lemma wolfId_not_mem_dropLast (ids : List String) (i : Nat) (hnd : ids.Nodup)
    (h : ids ≠ []) :
    wolfIdForHole ids i ∉ (rotatedOrderForHole ids i).dropLast := by
  have hnd2 := rotatedOrderForHole_nodup ids i hnd
  rw [← order_eq_dropLast_append ids i h] at hnd2
  intro hmem
  exact (List.nodup_append.1 hnd2).2.2 hmem (List.mem_singleton.2 rfl)

lemma lone_perm_wolf_first (ids : List String) (i : Nat) (h : ids ≠ []) :
    ([wolfIdForHole ids i] ++ (rotatedOrderForHole ids i).dropLast).Perm ids :=
  (List.perm_append_comm.trans
    (by rw [order_eq_dropLast_append ids i h])).trans (rotatedOrderForHole_perm ids i)

lemma lone_perm_wolf_last (ids : List String) (i : Nat) (h : ids ≠ []) :
    ((rotatedOrderForHole ids i).dropLast ++ [wolfIdForHole ids i]).Perm ids := by
  rw [order_eq_dropLast_append ids i h]
  exact rotatedOrderForHole_perm ids i

lemma team_filter_perm (ids : List String) (i : Nat) (p : String) (hnd : ids.Nodup)
    (h : ids ≠ []) (hp : p ∈ ids) (hpw : p ≠ wolfIdForHole ids i) :
    (((rotatedOrderForHole ids i).filter
      (fun pid => ([wolfIdForHole ids i, p]).contains pid)).Perm
      [wolfIdForHole ids i, p]) := by
  have hordnd : (rotatedOrderForHole ids i).Nodup := rotatedOrderForHole_nodup ids i hnd
  have hwmem := wolfId_mem_order ids i h
  have hpmem : p ∈ rotatedOrderForHole ids i := (rotatedOrderForHole_perm ids i).mem_iff.2 hp
  refine (List.perm_ext_iff_of_nodup (hordnd.filter _) ?_).2 ?_
  · exact List.nodup_cons.2 ⟨by simpa using hpw.symm, List.nodup_singleton p⟩
  · intro q
    simp only [List.mem_filter, List.contains_iff_exists_mem_beq, beq_iff_eq,
      List.mem_cons, List.mem_singleton, List.not_mem_nil, or_false]
    constructor
    · rintro ⟨-, x, hx, rfl⟩
      exact hx
    · rintro (rfl | rfl)
      · exact ⟨hwmem, wolfIdForHole ids i, Or.inl rfl, rfl⟩
      · exact ⟨hpmem, _, Or.inr rfl, rfl⟩

lemma team_perm (ids : List String) (i : Nat) (p : String) (hnd : ids.Nodup)
    (h : ids ≠ []) (hp : p ∈ ids) (hpw : p ≠ wolfIdForHole ids i) :
    (([wolfIdForHole ids i, p] ++
      (rotatedOrderForHole ids i).filter
        (fun pid => !([wolfIdForHole ids i, p]).contains pid)).Perm ids) := by
  have h1 := team_filter_perm ids i p hnd h hp hpw
  have h2 := List.filter_append_perm
    (fun pid => ([wolfIdForHole ids i, p]).contains pid) (rotatedOrderForHole ids i)
  exact ((h1.symm.append_right _).trans h2).trans (rotatedOrderForHole_perm ids i)

lemma settleDelta_winner (wU : Int) (W L : List String) (q : String) (hq : q ∈ W) :
    settleDelta wU W L q = wU * L.length := by
  simp [settleDelta, hq]

lemma settleDelta_loser (wU : Int) (W L : List String) (q : String)
    (hqW : q ∉ W) (hq : q ∈ L) :
    settleDelta wU W L q = -(wU * W.length) := by
  simp [settleDelta, hqW, hq]

lemma settleDelta_uninvolved (wU : Int) (W L : List String) (q : String)
    (hqW : q ∉ W) (hqL : q ∉ L) :
    settleDelta wU W L q = 0 := by
  simp [settleDelta, hqW, hqL]

lemma settle_entry_exists (st : Engine.EngineState) (i : Nat) (r : HoleResult)
    (wU : Int) (c2 : Nat) (W L : List String) (lab : String)
    (hW : W.Nodup) (hL : L.Nodup) (hdisj : ∀ q, q ∈ W → q ∉ L) :
    ∃ e : Engine.HoleEntry,
      (Engine.settleHole st i r wU c2 W L lab).perHole = st.perHole ++ [e] ∧
      (∀ q, q ∈ W → e.delta q = wU * L.length) ∧
      (∀ q, q ∈ L → e.delta q = -(wU * W.length)) ∧
      (∀ q, q ∉ W → q ∉ L → e.delta q = 0) := by
  obtain ⟨-, hperm, -, -, -⟩ := Engine.settleHole_spec st i r wU c2 W L lab hW hL hdisj
  refine ⟨_, hperm, ?_, ?_, ?_⟩
  · intro q hq
    exact settleDelta_winner wU W L q hq
  · intro q hq
    exact settleDelta_loser wU W L q (fun hw => hdisj q hw hq) hq
  · intro q hq1 hq2
    exact settleDelta_uninvolved wU W L q hq1 hq2

/-- C5: for every non-empty ordered player list and round index, the rotation
resolver returns `players[cut..N) ++ players[0..cut)` with
`cut = (N - (i mod N)) mod N`; the result is a permutation of the exact player
set; the role-holder (last element) is the same player at indices `i` and
`i + N`, and is a different player for each of `N` consecutive indices when the
player ids are distinct. -/
theorem c5_rotation_resolver (ids : List String) (i : Nat) (_h1 : ids ≠ []) :
    rotatedOrderForHole ids i =
      ids.drop ((ids.length - i % ids.length) % ids.length) ++
        ids.take ((ids.length - i % ids.length) % ids.length) ∧
    (rotatedOrderForHole ids i).Perm ids ∧
    wolfIdForHole ids (i + ids.length) = wolfIdForHole ids i ∧
    (ids.Nodup → ∀ j k : Nat, j < k → k - j < ids.length →
      wolfIdForHole ids j ≠ wolfIdForHole ids k) :=
  ⟨rfl, rotatedOrderForHole_perm ids i, wolfIdForHole_add_length ids i,
    fun hnd j k hjk hwin => wolfIdForHole_inj ids hnd j k hjk hwin⟩

/-- Witness for C5: the four-player roster at round index 1. -/
theorem c5_rotation_resolver_witness :
    wolfIds4 ≠ [] ∧
    (rotatedOrderForHole wolfIds4 1 =
      wolfIds4.drop ((wolfIds4.length - 1 % wolfIds4.length) % wolfIds4.length) ++
        wolfIds4.take ((wolfIds4.length - 1 % wolfIds4.length) % wolfIds4.length) ∧
    (rotatedOrderForHole wolfIds4 1).Perm wolfIds4 ∧
    wolfIdForHole wolfIds4 (1 + wolfIds4.length) = wolfIdForHole wolfIds4 1 ∧
    (wolfIds4.Nodup → ∀ j k : Nat, j < k → k - j < wolfIds4.length →
      wolfIdForHole wolfIds4 j ≠ wolfIdForHole wolfIds4 k)) :=
  ⟨by decide, c5_rotation_resolver wolfIds4 1 (by decide)⟩

lemma contains_eq_true_iff (l : List String) (a : String) :
    l.contains a = true ↔ a ∈ l := List.elem_iff

lemma contains_eq_false_iff (l : List String) (a : String) :
    l.contains a = false ↔ a ∉ l := by
  rw [Bool.eq_false_iff]
  exact not_congr (contains_eq_true_iff l a)

lemma not_mem_of_mem_filter_not_contains {order W : List String} {q : String}
    (hmem : q ∈ order.filter (fun pid => !W.contains pid)) : q ∉ W := by
  have h2 := (List.mem_filter.1 hmem).2
  rw [Bool.not_eq_true'] at h2
  exact (contains_eq_false_iff W q).1 h2

lemma playerIds_ne_nil {g : Game} (hne : g.players ≠ []) : g.playerIds ≠ [] := by
  intro he
  exact hne (List.map_eq_nil_iff.1 he)

/-- C1: in every decisive round with a valid solo/partner configuration, the
winner list and loser list computed by the engine partition the full player
set, each winner's delta in the round's breakdown entry equals
`wager × (number of losers)`, and each loser's delta equals
`−(wager × (number of winners))`; in particular, in the 4-player lone-role
round of `gameLoneLoss` (wager 1, outcome `OTHER`), the role-holder's delta is
−3 and each of the other three players' delta is +1. -/
theorem c1_decisive_settlement (g : Game) (i : Nat) (st : Engine.EngineState)
    (r : HoleResult)
    (hnodup : g.playerIds.Nodup) (hne : g.players ≠ [])
    (hres : (g.holes.getD i {}).result = some r) (hr : r ≠ .TIE)
    (hvalid : (g.holes.getD i {}).loneWolf = true ∨
      ((g.holes.getD i {}).loneWolf = false ∧
        ∃ p, (g.holes.getD i {}).partnerId = some p ∧ p ∈ g.playerIds ∧
          p ≠ wolfIdForHole g.playerIds i)) :
    (∃ winners losers : List String, ∃ e : Engine.HoleEntry,
      (winners ++ losers).Perm g.playerIds ∧
      (Engine.scoreHole g i st).perHole = st.perHole ++ [e] ∧
      (∀ q, q ∈ winners →
        e.delta q =
          Engine.wagerUnitsFor g (g.holes.getD i {}) st.carry * losers.length) ∧
      (∀ q, q ∈ losers →
        e.delta q =
          -(Engine.wagerUnitsFor g (g.holes.getD i {}) st.carry * winners.length))) ∧
    (((Engine.computeScores gameLoneLoss).perHole.getD 0 default).delta "p4" = -3 ∧
      ((Engine.computeScores gameLoneLoss).perHole.getD 0 default).delta "p1" = 1 ∧
      ((Engine.computeScores gameLoneLoss).perHole.getD 0 default).delta "p2" = 1 ∧
      ((Engine.computeScores gameLoneLoss).perHole.getD 0 default).delta "p3" = 1 ∧
      Engine.wagerUnitsFor gameLoneLoss (gameLoneLoss.holes.getD 0 {}) 0 = 1) := by
  constructor
  · have hne_ids : g.playerIds ≠ [] := playerIds_ne_nil hne
    have hordnd := rotatedOrderForHole_nodup g.playerIds i hnodup
    rcases hvalid with hl | ⟨hl, p, hp, hpmem, hpw⟩
    · have hLnd : (rotatedOrderForHole g.playerIds i).dropLast.Nodup :=
        (List.dropLast_sublist _).nodup hordnd
      have hwnotin := wolfId_not_mem_dropLast g.playerIds i hnodup hne_ids
      cases r with
      | TIE => exact absurd rfl hr
      | WOLF =>
          rw [Engine.scoreHole_lone g i st .WOLF hres hr hl, if_pos rfl]
          obtain ⟨e, he, hwin, hlos, -⟩ :=
            settle_entry_exists st i .WOLF
              (Engine.wagerUnitsFor g (g.holes.getD i {}) st.carry)
              (if g.options.pushTies then 0 else st.carry)
              [wolfIdForHole g.playerIds i]
              (rotatedOrderForHole g.playerIds i).dropLast
              "Lone Wolf wins" (List.nodup_singleton _) hLnd
              (fun q hq => by
                rw [List.mem_singleton] at hq
                rw [hq]
                exact hwnotin)
          exact ⟨_, _, e, lone_perm_wolf_first g.playerIds i hne_ids, he, hwin, hlos⟩
      | OTHER =>
          rw [Engine.scoreHole_lone g i st .OTHER hres hr hl,
            if_neg (by decide : ¬(HoleResult.OTHER = HoleResult.WOLF))]
          obtain ⟨e, he, hwin, hlos, -⟩ :=
            settle_entry_exists st i .OTHER
              (Engine.wagerUnitsFor g (g.holes.getD i {}) st.carry)
              (if g.options.pushTies then 0 else st.carry)
              (rotatedOrderForHole g.playerIds i).dropLast
              [wolfIdForHole g.playerIds i]
              "Little Piggie win" hLnd (List.nodup_singleton _)
              (fun q hq hq2 => by
                rw [List.mem_singleton] at hq2
                rw [hq2] at hq
                exact hwnotin hq)
          exact ⟨_, _, e, lone_perm_wolf_last g.playerIds i hne_ids, he, hwin, hlos⟩
    · have hteamnd : ([wolfIdForHole g.playerIds i, p]).Nodup :=
        List.nodup_cons.2 ⟨by simpa using hpw.symm, List.nodup_singleton p⟩
      have hotnd : ((rotatedOrderForHole g.playerIds i).filter
          (fun pid => !([wolfIdForHole g.playerIds i, p]).contains pid)).Nodup :=
        hordnd.filter _
      have hdisj : ∀ q, q ∈ [wolfIdForHole g.playerIds i, p] →
          q ∉ (rotatedOrderForHole g.playerIds i).filter
            (fun pid => !([wolfIdForHole g.playerIds i, p]).contains pid) :=
        fun q hq hmem => not_mem_of_mem_filter_not_contains hmem hq
      cases r with
      | TIE => exact absurd rfl hr
      | WOLF =>
          rw [Engine.scoreHole_team g i st .WOLF p hres hr hl hp hpw, if_pos rfl]
          obtain ⟨e, he, hwin, hlos, -⟩ :=
            settle_entry_exists st i .WOLF
              (Engine.wagerUnitsFor g (g.holes.getD i {}) st.carry)
              (if g.options.pushTies then 0 else st.carry)
              [wolfIdForHole g.playerIds i, p]
              ((rotatedOrderForHole g.playerIds i).filter
                (fun pid => !([wolfIdForHole g.playerIds i, p]).contains pid))
              "Wolf Pack wins" hteamnd hotnd hdisj
          exact ⟨_, _, e, team_perm g.playerIds i p hnodup hne_ids hpmem hpw, he, hwin, hlos⟩
      | OTHER =>
          rw [Engine.scoreHole_team g i st .OTHER p hres hr hl hp hpw,
            if_neg (by decide : ¬(HoleResult.OTHER = HoleResult.WOLF))]
          obtain ⟨e, he, hwin, hlos, -⟩ :=
            settle_entry_exists st i .OTHER
              (Engine.wagerUnitsFor g (g.holes.getD i {}) st.carry)
              (if g.options.pushTies then 0 else st.carry)
              ((rotatedOrderForHole g.playerIds i).filter
                (fun pid => !([wolfIdForHole g.playerIds i, p]).contains pid))
              [wolfIdForHole g.playerIds i, p]
              "Little Piggies win" hotnd hteamnd
              (fun q hq hq2 => hdisj q hq2 hq)
          exact ⟨_, _, e,
            List.perm_append_comm.trans
              (team_perm g.playerIds i p hnodup hne_ids hpmem hpw), he, hwin, hlos⟩
  · refine ⟨by decide, by decide, by decide, by decide, by decide⟩

/-- Witness for C1 at the concrete lone-loss game (round 0, initial state). -/
theorem c1_decisive_settlement_witness :
    gameLoneLoss.playerIds.Nodup ∧
    gameLoneLoss.players ≠ [] ∧
    (gameLoneLoss.holes.getD 0 {}).result = some HoleResult.OTHER ∧
    HoleResult.OTHER ≠ HoleResult.TIE ∧
    (gameLoneLoss.holes.getD 0 {}).loneWolf = true ∧
    ((∃ winners losers : List String, ∃ e : Engine.HoleEntry,
      (winners ++ losers).Perm gameLoneLoss.playerIds ∧
      (Engine.scoreHole gameLoneLoss 0 Engine.initState).perHole =
        Engine.initState.perHole ++ [e] ∧
      (∀ q, q ∈ winners →
        e.delta q = Engine.wagerUnitsFor gameLoneLoss (gameLoneLoss.holes.getD 0 {})
          Engine.initState.carry * losers.length) ∧
      (∀ q, q ∈ losers →
        e.delta q = -(Engine.wagerUnitsFor gameLoneLoss (gameLoneLoss.holes.getD 0 {})
          Engine.initState.carry * winners.length))) ∧
    (((Engine.computeScores gameLoneLoss).perHole.getD 0 default).delta "p4" = -3 ∧
      ((Engine.computeScores gameLoneLoss).perHole.getD 0 default).delta "p1" = 1 ∧
      ((Engine.computeScores gameLoneLoss).perHole.getD 0 default).delta "p2" = 1 ∧
      ((Engine.computeScores gameLoneLoss).perHole.getD 0 default).delta "p3" = 1 ∧
      Engine.wagerUnitsFor gameLoneLoss (gameLoneLoss.holes.getD 0 {}) 0 = 1)) :=
  ⟨by decide, by decide, by decide, by decide, by decide,
    c1_decisive_settlement gameLoneLoss 0 Engine.initState .OTHER (by decide) (by decide)
      (by decide) (by decide) (Or.inl (by decide))⟩

/-- C3: with `pushTies` enabled, a TIE round increments the carry by exactly 1
and emits an all-zero TIE entry (regardless of the round's blind flag, which
does not appear in the tie branch at all); a decisive round's per-player wager
equals `carry + 1 + (blind surcharge)` and the carry is reset to 0 after the
round; concretely, in `gameTwoTies` (two ties then a decisive lone round,
`blindWolf = false`) the decisive round's wager is 3 and the carry is 0
afterwards. -/
theorem c3_tie_carry (g : Game) (i : Nat) (st : Engine.EngineState)
    (hpush : g.options.pushTies = true) :
    ((g.holes.getD i {}).result = some .TIE →
      Engine.scoreHole g i st = { st with
        carry := st.carry + 1
        perHole := st.perHole ++ [Engine.tieEntry i] }) ∧
    (∀ r, (g.holes.getD i {}).result = some r → r ≠ .TIE →
      Engine.wagerPerPlayerFor g (g.holes.getD i {}) st.carry =
        st.carry + 1 +
          (if g.options.blindWolf && (g.holes.getD i {}).blind then 1 else 0) ∧
      (Engine.scoreHole g i st).carry = 0) ∧
    (Engine.wagerPerPlayerFor gameTwoTies (gameTwoTies.holes.getD 2 {})
        (Engine.runHoles gameTwoTies 2).carry = 3 ∧
      (Engine.runHoles gameTwoTies 2).carry = 2 ∧
      (Engine.runHoles gameTwoTies 3).carry = 0) := by
  refine ⟨?_, ?_, by decide, by decide, by decide⟩
  · intro h
    rw [Engine.scoreHole_result_tie g i st h]
    simp [hpush]
  · intro r h hr
    refine ⟨by simp [Engine.wagerPerPlayerFor, Engine.baseWagerPerPlayerFor, hpush,
      Nat.add_assoc], ?_⟩
    cases hlw : (g.holes.getD i {}).loneWolf with
    | false =>
        cases hpid : (g.holes.getD i {}).partnerId with
        | none =>
            rw [Engine.scoreHole_invalid_none g i st r h hr hlw hpid]
            simp [hpush]
        | some p =>
            by_cases hpw : p = wolfIdForHole g.playerIds i
            · rw [hpw] at hpid
              rw [Engine.scoreHole_invalid_wolf g i st r h hr hlw hpid]
              simp [hpush]
            · rw [Engine.scoreHole_team g i st r p h hr hlw hpid hpw]
              split <;> simp [Engine.settleHole, hpush]
    | true =>
        rw [Engine.scoreHole_lone g i st r h hr hlw]
        split <;> simp [Engine.settleHole, hpush]

/-- Witness for C3 at `gameTwoTies`, round 2, the state after the two ties. -/
theorem c3_tie_carry_witness :
    gameTwoTies.options.pushTies = true ∧
    (((gameTwoTies.holes.getD 2 {}).result = some HoleResult.TIE →
      Engine.scoreHole gameTwoTies 2 (Engine.runHoles gameTwoTies 2) =
        { Engine.runHoles gameTwoTies 2 with
          carry := (Engine.runHoles gameTwoTies 2).carry + 1
          perHole := (Engine.runHoles gameTwoTies 2).perHole ++ [Engine.tieEntry 2] }) ∧
    (∀ r, (gameTwoTies.holes.getD 2 {}).result = some r → r ≠ .TIE →
      Engine.wagerPerPlayerFor gameTwoTies (gameTwoTies.holes.getD 2 {})
          (Engine.runHoles gameTwoTies 2).carry =
        (Engine.runHoles gameTwoTies 2).carry + 1 +
          (if gameTwoTies.options.blindWolf && (gameTwoTies.holes.getD 2 {}).blind
            then 1 else 0) ∧
      (Engine.scoreHole gameTwoTies 2 (Engine.runHoles gameTwoTies 2)).carry = 0) ∧
    (Engine.wagerPerPlayerFor gameTwoTies (gameTwoTies.holes.getD 2 {})
        (Engine.runHoles gameTwoTies 2).carry = 3 ∧
      (Engine.runHoles gameTwoTies 2).carry = 2 ∧
      (Engine.runHoles gameTwoTies 3).carry = 0)) :=
  ⟨by decide, c3_tie_carry gameTwoTies 2 (Engine.runHoles gameTwoTies 2) (by decide)⟩

/-- C2 (code behaviour at the failing input): in `gameCarryInvalid` (pushTies
on; a tie, then a decisive team hole with no partner chosen, then a lone-wolf
hole), the invalid-partner hole is emitted `NOT_SCORED` with all-zero deltas —
but the engine resets the pending carry to 0 BEFORE the partner check, so the
next decisive hole is settled at wager 1 (its Wolf `p2` gains 3), not at
wager 2 (gain 6) as carry preservation would require. -/
theorem c2_invalid_partner_consumes_carry :
    (Engine.runHoles gameCarryInvalid 1).carry = 1 ∧
    ((Engine.runHoles gameCarryInvalid 2).perHole.getD 1 default).status =
      Engine.HoleStatus.NOT_SCORED ∧
    (∀ q, ((Engine.runHoles gameCarryInvalid 2).perHole.getD 1 default).delta q = 0) ∧
    (Engine.runHoles gameCarryInvalid 2).carry = 0 ∧
    Engine.wagerPerPlayerFor gameCarryInvalid (gameCarryInvalid.holes.getD 2 {})
      (Engine.runHoles gameCarryInvalid 2).carry = 1 ∧
    ((Engine.computeScores gameCarryInvalid).perHole.getD 2 default).delta "p2" = 3 := by
  refine ⟨by decide, by decide, ?_, by decide, by decide, by decide⟩
  intro q
  rfl

/-- C6 counterexample: with the blind/solo invariant violated (`blind = true`,
`loneWolf = false`), the engine does NOT ignore `partnerId` and does not score
the role-holder alone against the field: changing the recorded partner from
`p1` to `p2` flips `p1`'s settled delta from +4 (Wolf-team member) to −4
(opponent); the lone-role scoring the claim prescribes would instead give
`p1` the field-member delta −2 in both games. -/
theorem c6_counterexample :
    ((Engine.computeScores gameBlindTeamA).perHole.getD 0 default).delta "p1" = 4 ∧
    ((Engine.computeScores gameBlindTeamB).perHole.getD 0 default).delta "p1" = -4 ∧
    (Engine.computeScores gameBlindTeamA).totals "p1" = 4 ∧
    (Engine.computeScores gameBlindTeamB).totals "p1" = -4 ∧
    ((4 : Int) ≠ -4) ∧ ((4 : Int) ≠ -2) :=
  ⟨by decide, by decide, by decide, by decide, by decide, by decide⟩

/-- C6 amended: the engine does not coerce a blind round to solo play.  A
round with `blind = true` but `loneWolf = false` and a valid partner is
settled as an ordinary team round — the role-holder and the recorded partner
on one side against the remaining players — with the blind surcharge included
in the wager (base wager 2). -/
theorem c6_blind_team_round_scored_as_team (g : Game) (i : Nat)
    (st : Engine.EngineState) (r : HoleResult)
    (hnodup : g.playerIds.Nodup) (hne : g.players ≠ [])
    (hres : (g.holes.getD i {}).result = some r) (hr : r ≠ .TIE)
    (hblind : (g.holes.getD i {}).blind = true)
    (hl : (g.holes.getD i {}).loneWolf = false)
    (p : String) (hp : (g.holes.getD i {}).partnerId = some p)
    (hpmem : p ∈ g.playerIds) (hpw : p ≠ wolfIdForHole g.playerIds i)
    (hbw : g.options.blindWolf = true) :
    Engine.wagerPerPlayerFor g (g.holes.getD i {}) st.carry =
      (if g.options.pushTies then st.carry else 0) + 2 ∧
    ∃ e : Engine.HoleEntry,
      (Engine.scoreHole g i st).perHole = st.perHole ++ [e] ∧
      e.delta p = (if r = .WOLF then
          Engine.wagerUnitsFor g (g.holes.getD i {}) st.carry *
            ((g.playerIds.length : Int) - 2)
        else -(Engine.wagerUnitsFor g (g.holes.getD i {}) st.carry *
            ((g.playerIds.length : Int) - 2))) ∧
      e.delta (wolfIdForHole g.playerIds i) = e.delta p := by
  have hne_ids : g.playerIds ≠ [] := playerIds_ne_nil hne
  have hordnd := rotatedOrderForHole_nodup g.playerIds i hnodup
  have hteamnd : ([wolfIdForHole g.playerIds i, p]).Nodup :=
    List.nodup_cons.2 ⟨by simpa using hpw.symm, List.nodup_singleton p⟩
  have hotnd : ((rotatedOrderForHole g.playerIds i).filter
      (fun pid => !([wolfIdForHole g.playerIds i, p]).contains pid)).Nodup :=
    hordnd.filter _
  have hdisj : ∀ q, q ∈ [wolfIdForHole g.playerIds i, p] →
      q ∉ (rotatedOrderForHole g.playerIds i).filter
        (fun pid => !([wolfIdForHole g.playerIds i, p]).contains pid) :=
    fun q hq hmem => not_mem_of_mem_filter_not_contains hmem hq
  have hlen2 : 2 + ((rotatedOrderForHole g.playerIds i).filter
      (fun pid => !([wolfIdForHole g.playerIds i, p]).contains pid)).length =
      g.playerIds.length := by
    have h0 := (team_perm g.playerIds i p hnodup hne_ids hpmem hpw).length_eq
    rw [List.length_append] at h0
    exact h0
  constructor
  · unfold Engine.wagerPerPlayerFor Engine.baseWagerPerPlayerFor
    rw [hbw, hblind]
    simp
  · cases r with
    | TIE => exact absurd rfl hr
    | WOLF =>
        rw [Engine.scoreHole_team g i st .WOLF p hres hr hl hp hpw, if_pos rfl]
        obtain ⟨e, he, hwin, hlos, -⟩ :=
          settle_entry_exists st i .WOLF
            (Engine.wagerUnitsFor g (g.holes.getD i {}) st.carry)
            (if g.options.pushTies then 0 else st.carry)
            [wolfIdForHole g.playerIds i, p]
            ((rotatedOrderForHole g.playerIds i).filter
              (fun pid => !([wolfIdForHole g.playerIds i, p]).contains pid))
            "Wolf Pack wins" hteamnd hotnd hdisj
        refine ⟨e, he, ?_, ?_⟩
        · rw [if_pos rfl, hwin p (by simp)]
          congr 1
          omega
        · rw [hwin p (by simp), hwin (wolfIdForHole g.playerIds i) (by simp)]
    | OTHER =>
        rw [Engine.scoreHole_team g i st .OTHER p hres hr hl hp hpw,
          if_neg (by decide : ¬(HoleResult.OTHER = HoleResult.WOLF))]
        obtain ⟨e, he, hwin, hlos, -⟩ :=
          settle_entry_exists st i .OTHER
            (Engine.wagerUnitsFor g (g.holes.getD i {}) st.carry)
            (if g.options.pushTies then 0 else st.carry)
            ((rotatedOrderForHole g.playerIds i).filter
              (fun pid => !([wolfIdForHole g.playerIds i, p]).contains pid))
            [wolfIdForHole g.playerIds i, p]
            "Little Piggies win" hotnd hteamnd
            (fun q hq hq2 => hdisj q hq2 hq)
        refine ⟨e, he, ?_, ?_⟩
        · rw [if_neg (by decide : ¬(HoleResult.OTHER = HoleResult.WOLF)),
            hlos p (by simp)]
          congr 1
          congr 1
          omega
        · rw [hlos p (by simp), hlos (wolfIdForHole g.playerIds i) (by simp)]

/-- Witness for the amended C6 at `gameBlindTeamA` (blind team round, Wolf
team wins; partner `p1` gains wager 2 × field 2 = 4). -/
theorem c6_blind_team_round_scored_as_team_witness :
    gameBlindTeamA.playerIds.Nodup ∧
    gameBlindTeamA.players ≠ [] ∧
    (gameBlindTeamA.holes.getD 0 {}).result = some HoleResult.WOLF ∧
    HoleResult.WOLF ≠ HoleResult.TIE ∧
    (gameBlindTeamA.holes.getD 0 {}).blind = true ∧
    (gameBlindTeamA.holes.getD 0 {}).loneWolf = false ∧
    (gameBlindTeamA.holes.getD 0 {}).partnerId = some "p1" ∧
    "p1" ∈ gameBlindTeamA.playerIds ∧
    "p1" ≠ wolfIdForHole gameBlindTeamA.playerIds 0 ∧
    gameBlindTeamA.options.blindWolf = true ∧
    (Engine.wagerPerPlayerFor gameBlindTeamA (gameBlindTeamA.holes.getD 0 {})
        Engine.initState.carry =
      (if gameBlindTeamA.options.pushTies then Engine.initState.carry else 0) + 2 ∧
    ∃ e : Engine.HoleEntry,
      (Engine.scoreHole gameBlindTeamA 0 Engine.initState).perHole =
        Engine.initState.perHole ++ [e] ∧
      e.delta "p1" = (if HoleResult.WOLF = HoleResult.WOLF then
          Engine.wagerUnitsFor gameBlindTeamA (gameBlindTeamA.holes.getD 0 {})
            Engine.initState.carry * ((gameBlindTeamA.playerIds.length : Int) - 2)
        else -(Engine.wagerUnitsFor gameBlindTeamA (gameBlindTeamA.holes.getD 0 {})
            Engine.initState.carry * ((gameBlindTeamA.playerIds.length : Int) - 2))) ∧
      e.delta (wolfIdForHole gameBlindTeamA.playerIds 0) = e.delta "p1") :=
  ⟨by decide, by decide, by decide, by decide, by decide, by decide, by decide,
    by decide, by decide, by decide,
    c6_blind_team_round_scored_as_team gameBlindTeamA 0 Engine.initState .WOLF
      (by decide) (by decide) (by decide) (by decide) (by decide) (by decide)
      "p1" (by decide) (by decide) (by decide) (by decide)⟩

/-- C9: the older pooled-pot engine and the newer all-pairs engine are not
equivalent scoring rules.  On `gameTeamWin` (a single team hole won by the
Wolf team) the older engine credits partner `p1` with 6 sixth-units (one
point) while the newer engine credits 2 whole points — the outputs differ
both raw and after normalising the older engine's sixth-units by
`POINTS_UNIT = 6`. -/
theorem c9_engines_not_equivalent :
    (OldEngine.computeScores gameTeamWin).1 "p1" = 6 ∧
    (Engine.computeScores gameTeamWin).totals "p1" = 2 ∧
    (OldEngine.computeScores gameTeamWin).1 "p1" ≠
      6 * (Engine.computeScores gameTeamWin).totals "p1" ∧
    (OldEngine.computeScores gameTeamWin).1 "p1" ≠
      (Engine.computeScores gameTeamWin).totals "p1" :=
  ⟨by decide, by decide, by decide, by decide⟩

lemma scoreHole_perHole_append (g : Game) (i : Nat) (st : Engine.EngineState) :
    ∃ e, (Engine.scoreHole g i st).perHole = st.perHole ++ [e] := by
  cases hres : (g.holes.getD i {}).result with
  | none => exact ⟨_, by rw [Engine.scoreHole_result_none g i st hres]⟩
  | some r =>
      by_cases hrt : r = HoleResult.TIE
      · subst hrt
        exact ⟨_, by rw [Engine.scoreHole_result_tie g i st hres]⟩
      · cases hlw : (g.holes.getD i {}).loneWolf with
        | true =>
            rw [Engine.scoreHole_lone g i st r hres hrt hlw]
            split
            · exact ⟨_, rfl⟩
            · exact ⟨_, rfl⟩
        | false =>
            cases hpid : (g.holes.getD i {}).partnerId with
            | none =>
                rw [Engine.scoreHole_invalid_none g i st r hres hrt hlw hpid]
                exact ⟨_, rfl⟩
            | some p =>
                by_cases hpw : p = wolfIdForHole g.playerIds i
                · rw [hpw] at hpid
                  rw [Engine.scoreHole_invalid_wolf g i st r hres hrt hlw hpid]
                  exact ⟨_, rfl⟩
                · rw [Engine.scoreHole_team g i st r p hres hrt hlw hpid hpw]
                  split
                  · exact ⟨_, rfl⟩
                  · exact ⟨_, rfl⟩

lemma runHoles_perHole_length (g : Game) (k : Nat) :
    (Engine.runHoles g k).perHole.length = k := by
  induction k with
  | zero => rfl
  | succ n ih =>
      obtain ⟨e, he⟩ := scoreHole_perHole_append g n (Engine.runHoles g n)
      show (Engine.scoreHole g n (Engine.runHoles g n)).perHole.length = n + 1
      rw [he, List.length_append, ih]
      rfl

/-- C7: a null-outcome round yields a `NOT_SCORED` entry with all-zero deltas
and the running state (totals, won, lost, tie carry) entirely untouched; and
the engine is total — for every game input, malformed rounds included, it
emits exactly one breakdown entry per configured hole rather than raising an
error. -/
theorem c7_null_outcome_and_totality (g : Game) (i : Nat) (st : Engine.EngineState)
    (h : (g.holes.getD i {}).result = none) :
    Engine.scoreHole g i st =
      { st with perHole := st.perHole ++ [Engine.notScoredEntry i] } ∧
    (Engine.notScoredEntry i).status = Engine.HoleStatus.NOT_SCORED ∧
    (∀ q, (Engine.notScoredEntry i).delta q = 0) ∧
    (∀ g2 : Game, (Engine.computeScores g2).perHole.length = g2.holeCount) :=
  ⟨Engine.scoreHole_result_none g i st h, rfl, fun _ => rfl,
    fun g2 => runHoles_perHole_length g2 g2.holeCount⟩

/-- Witness for C7: `gameTeamWin` with hole index 1 (beyond the recorded
holes, hence a null outcome). -/
theorem c7_null_outcome_and_totality_witness :
    (gameTeamWin.holes.getD 1 {}).result = none ∧
    (Engine.scoreHole gameTeamWin 1 Engine.initState =
      { Engine.initState with
        perHole := Engine.initState.perHole ++ [Engine.notScoredEntry 1] } ∧
    (Engine.notScoredEntry 1).status = Engine.HoleStatus.NOT_SCORED ∧
    (∀ q, (Engine.notScoredEntry 1).delta q = 0) ∧
    (∀ g2 : Game, (Engine.computeScores g2).perHole.length = g2.holeCount)) :=
  ⟨by decide, c7_null_outcome_and_totality gameTeamWin 1 Engine.initState (by decide)⟩

lemma scoreHole_congr (g g2 : Game) (i : Nat) (st : Engine.EngineState)
    (hp : g2.players = g.players) (ho : g2.options = g.options)
    (hh : g2.holes.getD i {} = g.holes.getD i {}) :
    Engine.scoreHole g2 i st = Engine.scoreHole g i st := by
  have hids : g2.playerIds = g.playerIds := by
    unfold Game.playerIds
    rw [hp]
  have hw : Engine.wagerUnitsFor g2 = Engine.wagerUnitsFor g := by
    funext hh2 c
    unfold Engine.wagerUnitsFor Engine.wagerPerPlayerFor Engine.baseWagerPerPlayerFor
    rw [ho]
  simp only [Engine.scoreHole, hids, ho, hh, hw]

lemma getD_replicate_self {α : Type} (a : α) (k j : Nat) :
    (List.replicate k a).getD j a = a := by
  rw [List.getD_eq_getD_get?, List.get?_eq_getElem?, List.getElem?_replicate]
  split <;> rfl

lemma runHoles_extend_prefix (g : Game) (k : Nat) (hlen : g.holes.length = g.holeCount) :
    ∀ j, j ≤ g.holeCount →
      Engine.runHoles (extendGame g k) j = Engine.runHoles g j := by
  intro j
  induction j with
  | zero => intro _; rfl
  | succ n ih =>
      intro hle
      show Engine.scoreHole (extendGame g k) n (Engine.runHoles (extendGame g k) n) =
        Engine.scoreHole g n (Engine.runHoles g n)
      rw [ih (Nat.le_of_succ_le hle)]
      exact scoreHole_congr g (extendGame g k) n _ rfl rfl
        (by
          have h3 : (extendGame g k).holes = g.holes ++ List.replicate k ({} : Hole) := rfl
          rw [h3]
          exact List.getD_append _ _ _ _ (by omega))

lemma runHoles_extend_extra (g : Game) (k : Nat) (hlen : g.holes.length = g.holeCount) :
    ∀ j, (Engine.runHoles (extendGame g k) (g.holeCount + j)).totals =
        (Engine.runHoles g g.holeCount).totals ∧
      (Engine.runHoles (extendGame g k) (g.holeCount + j)).won =
        (Engine.runHoles g g.holeCount).won ∧
      (Engine.runHoles (extendGame g k) (g.holeCount + j)).lost =
        (Engine.runHoles g g.holeCount).lost ∧
      (Engine.runHoles (extendGame g k) (g.holeCount + j)).carry =
        (Engine.runHoles g g.holeCount).carry := by
  intro j
  induction j with
  | zero =>
      rw [Nat.add_zero, runHoles_extend_prefix g k hlen g.holeCount (Nat.le_refl _)]
      exact ⟨rfl, rfl, rfl, rfl⟩
  | succ n ih =>
      have hres : ((extendGame g k).holes.getD (g.holeCount + n) {}).result = none := by
        have h3 : (extendGame g k).holes = g.holes ++ List.replicate k ({} : Hole) := rfl
        rw [h3, List.getD_append_right _ _ _ _ (by omega), hlen]
        have h2 : g.holeCount + n - g.holeCount = n := by omega
        rw [h2, getD_replicate_self]
      have hstep : Engine.runHoles (extendGame g k) (g.holeCount + (n + 1)) =
          Engine.scoreHole (extendGame g k) (g.holeCount + n)
            (Engine.runHoles (extendGame g k) (g.holeCount + n)) := rfl
      rw [hstep, Engine.scoreHole_result_none _ _ _ hres]
      exact ih

/-- C8: the engine is deterministic — equal inputs give equal outputs — and
extending the holes array with additional null-outcome holes (raising the
hole count to match) leaves every per-player total (net, won, lost)
unchanged. -/
theorem c8_determinism_and_extension (g gA gB : Game) (k : Nat)
    (hAB : gA = gB) (hlen : g.holes.length = g.holeCount) :
    Engine.computeScores gA = Engine.computeScores gB ∧
    (Engine.computeScores (extendGame g k)).totals =
      (Engine.computeScores g).totals ∧
    (Engine.computeScores (extendGame g k)).won = (Engine.computeScores g).won ∧
    (Engine.computeScores (extendGame g k)).lost = (Engine.computeScores g).lost := by
  have hcount : (extendGame g k).holeCount = g.holeCount + k := rfl
  obtain ⟨ht, hw, hl, -⟩ := runHoles_extend_extra g k hlen k
  exact ⟨by rw [hAB], ht, hw, hl⟩

/-- Witness for C8: `gameTeamWin` extended with two null holes. -/
theorem c8_determinism_and_extension_witness :
    gameTeamWin = gameTeamWin ∧
    gameTeamWin.holes.length = gameTeamWin.holeCount ∧
    (Engine.computeScores gameTeamWin = Engine.computeScores gameTeamWin ∧
    (Engine.computeScores (extendGame gameTeamWin 2)).totals =
      (Engine.computeScores gameTeamWin).totals ∧
    (Engine.computeScores (extendGame gameTeamWin 2)).won =
      (Engine.computeScores gameTeamWin).won ∧
    (Engine.computeScores (extendGame gameTeamWin 2)).lost =
      (Engine.computeScores gameTeamWin).lost) :=
  ⟨rfl, by decide,
    c8_determinism_and_extension gameTeamWin gameTeamWin gameTeamWin 2 rfl (by decide)⟩

lemma sum_map_add_distrib (l : List String) (f g2 : String → Int) :
    (l.map (fun q => f q + g2 q)).sum = (l.map f).sum + (l.map g2).sum := by
  induction l with
  | nil => simp
  | cons a t ih =>
      simp only [List.map_cons, List.sum_cons, ih]
      ring

lemma sum_map_const_on (l : List String) (f : String → Int) (c : Int)
    (h : ∀ q ∈ l, f q = c) : (l.map f).sum = l.length * c := by
  induction l with
  | nil => simp
  | cons a t ih =>
      simp only [List.map_cons, List.sum_cons, List.length_cons,
        h a (List.mem_cons_self a t), ih (fun q hq => h q (List.mem_cons_of_mem _ hq))]
      push_cast
      ring

lemma sum_settleDelta_eq_zero (ids W L : List String) (wU : Int)
    (hnodup : ids.Nodup) (hperm : (W ++ L).Perm ids) :
    (ids.map (settleDelta wU W L)).sum = 0 := by
  have hWL : (W ++ L).Nodup := hperm.nodup_iff.2 hnodup
  obtain ⟨hW, hL, hdisj⟩ := List.nodup_append.1 hWL
  have hmap := (hperm.map (settleDelta wU W L)).sum_eq
  rw [← hmap, List.map_append, List.sum_append]
  rw [sum_map_const_on W _ (wU * L.length) (fun q hq => settleDelta_winner wU W L q hq),
    sum_map_const_on L _ (-(wU * W.length))
      (fun q hq => settleDelta_loser wU W L q (fun hw => hdisj hw hq) hq)]
  ring

lemma settle_step_sums (st : Engine.EngineState) (i : Nat) (r : HoleResult)
    (wU : Int) (c2 : Nat) (W L : List String) (lab : String) (ids : List String)
    (hnodup : ids.Nodup) (hperm : (W ++ L).Perm ids) :
    ((Engine.settleHole st i r wU c2 W L lab).perHole =
      st.perHole ++ [⟨i + 1, (if r = .WOLF then .WOLF_WIN else .OTHER_WIN), lab,
        settleDelta wU W L⟩]) ∧
    (ids.map (settleDelta wU W L)).sum = 0 ∧
    (ids.map (Engine.settleHole st i r wU c2 W L lab).totals).sum =
      (ids.map st.totals).sum := by
  have hWL : (W ++ L).Nodup := hperm.nodup_iff.2 hnodup
  obtain ⟨hW, hL, hdisj⟩ := List.nodup_append.1 hWL
  obtain ⟨-, hperm2, htot, -, -⟩ := Engine.settleHole_spec st i r wU c2 W L lab hW hL
    (fun q hq hq2 => hdisj hq hq2)
  refine ⟨hperm2, sum_settleDelta_eq_zero ids W L wU hnodup hperm, ?_⟩
  have hmapeq : ids.map (Engine.settleHole st i r wU c2 W L lab).totals =
      ids.map (fun q => st.totals q + settleDelta wU W L q) :=
    List.map_congr_left (fun q _ => htot q)
  rw [hmapeq, sum_map_add_distrib, sum_settleDelta_eq_zero ids W L wU hnodup hperm,
    add_zero]

lemma scoreHole_zero_sum_step (g : Game) (i : Nat) (st : Engine.EngineState)
    (hnodup : g.playerIds.Nodup) (hne : g.players ≠ [])
    (hpartner : ∀ p, (g.holes.getD i {}).partnerId = some p → p ∈ g.playerIds) :
    ∃ e, (Engine.scoreHole g i st).perHole = st.perHole ++ [e] ∧
      (g.playerIds.map e.delta).sum = 0 ∧
      (g.playerIds.map (Engine.scoreHole g i st).totals).sum =
        (g.playerIds.map st.totals).sum := by
  have hne_ids : g.playerIds ≠ [] := playerIds_ne_nil hne
  cases hres : (g.holes.getD i {}).result with
  | none =>
      rw [Engine.scoreHole_result_none g i st hres]
      exact ⟨_, rfl, by simp [Engine.notScoredEntry], rfl⟩
  | some r =>
      by_cases hrt : r = HoleResult.TIE
      · subst hrt
        rw [Engine.scoreHole_result_tie g i st hres]
        exact ⟨_, rfl, by simp [Engine.tieEntry], rfl⟩
      · cases hlw : (g.holes.getD i {}).loneWolf with
        | true =>
            rw [Engine.scoreHole_lone g i st r hres hrt hlw]
            split
            · obtain ⟨h1, h2, h3⟩ := settle_step_sums st i r
                (Engine.wagerUnitsFor g (g.holes.getD i {}) st.carry)
                (if g.options.pushTies then 0 else st.carry)
                [wolfIdForHole g.playerIds i]
                (rotatedOrderForHole g.playerIds i).dropLast
                "Lone Wolf wins" g.playerIds hnodup
                (lone_perm_wolf_first g.playerIds i hne_ids)
              exact ⟨_, h1, h2, h3⟩
            · obtain ⟨h1, h2, h3⟩ := settle_step_sums st i r
                (Engine.wagerUnitsFor g (g.holes.getD i {}) st.carry)
                (if g.options.pushTies then 0 else st.carry)
                (rotatedOrderForHole g.playerIds i).dropLast
                [wolfIdForHole g.playerIds i]
                "Little Piggie win" g.playerIds hnodup
                (lone_perm_wolf_last g.playerIds i hne_ids)
              exact ⟨_, h1, h2, h3⟩
        | false =>
            cases hpid : (g.holes.getD i {}).partnerId with
            | none =>
                rw [Engine.scoreHole_invalid_none g i st r hres hrt hlw hpid]
                exact ⟨_, rfl, by simp [Engine.notScoredEntry], rfl⟩
            | some p =>
                by_cases hpw : p = wolfIdForHole g.playerIds i
                · rw [hpw] at hpid
                  rw [Engine.scoreHole_invalid_wolf g i st r hres hrt hlw hpid]
                  exact ⟨_, rfl, by simp [Engine.notScoredEntry], rfl⟩
                · rw [Engine.scoreHole_team g i st r p hres hrt hlw hpid hpw]
                  have hpmem := hpartner p hpid
                  split
                  · obtain ⟨h1, h2, h3⟩ := settle_step_sums st i r
                      (Engine.wagerUnitsFor g (g.holes.getD i {}) st.carry)
                      (if g.options.pushTies then 0 else st.carry)
                      [wolfIdForHole g.playerIds i, p]
                      ((rotatedOrderForHole g.playerIds i).filter
                        (fun pid => !([wolfIdForHole g.playerIds i, p]).contains pid))
                      "Wolf Pack wins" g.playerIds hnodup
                      (team_perm g.playerIds i p hnodup hne_ids hpmem hpw)
                    exact ⟨_, h1, h2, h3⟩
                  · obtain ⟨h1, h2, h3⟩ := settle_step_sums st i r
                      (Engine.wagerUnitsFor g (g.holes.getD i {}) st.carry)
                      (if g.options.pushTies then 0 else st.carry)
                      ((rotatedOrderForHole g.playerIds i).filter
                        (fun pid => !([wolfIdForHole g.playerIds i, p]).contains pid))
                      [wolfIdForHole g.playerIds i, p]
                      "Little Piggies win" g.playerIds hnodup
                      (List.perm_append_comm.trans
                        (team_perm g.playerIds i p hnodup hne_ids hpmem hpw))
                    exact ⟨_, h1, h2, h3⟩

/-- C4: under distinct player ids and roster-valid partner ids, the per-player
deltas of every breakdown entry sum to zero over the player set, and the
per-player net totals returned by `computeScores` sum to zero. -/
theorem c4_zero_sum (g : Game)
    (hnodup : g.playerIds.Nodup) (hne : g.players ≠ [])
    (hpartner : ∀ i : Nat, ∀ p, (g.holes.getD i {}).partnerId = some p →
      p ∈ g.playerIds) :
    (∀ e ∈ (Engine.computeScores g).perHole, (g.playerIds.map e.delta).sum = 0) ∧
    (g.playerIds.map (Engine.computeScores g).totals).sum = 0 := by
  have main : ∀ k, (∀ e ∈ (Engine.runHoles g k).perHole,
      (g.playerIds.map e.delta).sum = 0) ∧
      (g.playerIds.map (Engine.runHoles g k).totals).sum = 0 := by
    intro k
    induction k with
    | zero =>
        constructor
        · intro e he
          cases he
        · simp [Engine.runHoles, Engine.initState]
    | succ n ih =>
        obtain ⟨e, he, hezero, htot⟩ :=
          scoreHole_zero_sum_step g n (Engine.runHoles g n) hnodup hne (hpartner n)
        have hstep : Engine.runHoles g (n + 1) =
            Engine.scoreHole g n (Engine.runHoles g n) := rfl
        constructor
        · intro e2 he2
          rw [hstep, he] at he2
          rcases List.mem_append.1 he2 with h2 | h2
          · exact ih.1 e2 h2
          · rw [List.mem_singleton.1 h2]
            exact hezero
        · rw [hstep, htot]
          exact ih.2
  exact ⟨fun e he => (main g.holeCount).1 e he, (main g.holeCount).2⟩

/-- Witness for C4 at the concrete team-win game. -/
theorem c4_zero_sum_witness :
    gameTeamWin.playerIds.Nodup ∧
    gameTeamWin.players ≠ [] ∧
    (∀ i : Nat, ∀ p, (gameTeamWin.holes.getD i {}).partnerId = some p →
      p ∈ gameTeamWin.playerIds) ∧
    ((∀ e ∈ (Engine.computeScores gameTeamWin).perHole,
      (gameTeamWin.playerIds.map e.delta).sum = 0) ∧
    (gameTeamWin.playerIds.map (Engine.computeScores gameTeamWin).totals).sum = 0) := by
  have hpartner : ∀ i : Nat, ∀ p,
      (gameTeamWin.holes.getD i {}).partnerId = some p →
        p ∈ gameTeamWin.playerIds := by
    intro i p hp
    match i, hp with
    | 0, hp =>
        have hp2 : some "p1" = some p := hp
        rw [← Option.some_inj.1 hp2]
        decide
    | Nat.succ n, hp =>
        have h1 : gameTeamWin.holes.getD (n + 1) {} = {} :=
          List.getD_eq_default _ _ (by simp [gameTeamWin])
        rw [h1] at hp
        exact Option.noConfusion hp
  exact ⟨by decide, by decide, hpartner,
    c4_zero_sum gameTeamWin (by decide) (by decide) hpartner⟩

lemma wolfId_not_mem_dropLast2 (ids : List String) (i : Nat) (hnd : ids.Nodup) :
    wolfIdForHole ids i ∉ (rotatedOrderForHole ids i).dropLast := by
  by_cases h : ids = []
  · subst h
    simp [rotatedOrderForHole]
  · exact wolfId_not_mem_dropLast ids i hnd h

lemma scoreHole_accounting_step (g : Game) (i : Nat) (st : Engine.EngineState)
    (hnodup : g.playerIds.Nodup) :
    ∃ e, (Engine.scoreHole g i st).perHole = st.perHole ++ [e] ∧
      ∀ q, (Engine.scoreHole g i st).totals q = st.totals q + e.delta q ∧
        (Engine.scoreHole g i st).won q =
          st.won q + (if 0 < e.delta q then e.delta q else 0) ∧
        (Engine.scoreHole g i st).lost q =
          st.lost q + (if e.delta q < 0 then -(e.delta q) else 0) := by
  have hordnd := rotatedOrderForHole_nodup g.playerIds i hnodup
  cases hres : (g.holes.getD i {}).result with
  | none =>
      rw [Engine.scoreHole_result_none g i st hres]
      exact ⟨_, rfl, fun q => ⟨by simp [Engine.notScoredEntry],
        by simp [Engine.notScoredEntry], by simp [Engine.notScoredEntry]⟩⟩
  | some r =>
      by_cases hrt : r = HoleResult.TIE
      · subst hrt
        rw [Engine.scoreHole_result_tie g i st hres]
        exact ⟨_, rfl, fun q => ⟨by simp [Engine.tieEntry],
          by simp [Engine.tieEntry], by simp [Engine.tieEntry]⟩⟩
      · cases hlw : (g.holes.getD i {}).loneWolf with
        | true =>
            have hLnd : (rotatedOrderForHole g.playerIds i).dropLast.Nodup :=
              (List.dropLast_sublist _).nodup hordnd
            have hwnotin := wolfId_not_mem_dropLast2 g.playerIds i hnodup
            rw [Engine.scoreHole_lone g i st r hres hrt hlw]
            split
            · obtain ⟨-, hperm, ht, hw, hl⟩ := Engine.settleHole_spec st i r
                (Engine.wagerUnitsFor g (g.holes.getD i {}) st.carry)
                (if g.options.pushTies then 0 else st.carry)
                [wolfIdForHole g.playerIds i]
                (rotatedOrderForHole g.playerIds i).dropLast
                "Lone Wolf wins" (List.nodup_singleton _) hLnd
                (fun q hq => by
                  rw [List.mem_singleton] at hq
                  rw [hq]
                  exact hwnotin)
              exact ⟨_, hperm, fun q => ⟨ht q, hw q, hl q⟩⟩
            · obtain ⟨-, hperm, ht, hw, hl⟩ := Engine.settleHole_spec st i r
                (Engine.wagerUnitsFor g (g.holes.getD i {}) st.carry)
                (if g.options.pushTies then 0 else st.carry)
                (rotatedOrderForHole g.playerIds i).dropLast
                [wolfIdForHole g.playerIds i]
                "Little Piggie win" hLnd (List.nodup_singleton _)
                (fun q hq hq2 => by
                  rw [List.mem_singleton] at hq2
                  rw [hq2] at hq
                  exact hwnotin hq)
              exact ⟨_, hperm, fun q => ⟨ht q, hw q, hl q⟩⟩
        | false =>
            cases hpid : (g.holes.getD i {}).partnerId with
            | none =>
                rw [Engine.scoreHole_invalid_none g i st r hres hrt hlw hpid]
                exact ⟨_, rfl, fun q => ⟨by simp [Engine.notScoredEntry],
                  by simp [Engine.notScoredEntry], by simp [Engine.notScoredEntry]⟩⟩
            | some p =>
                by_cases hpw : p = wolfIdForHole g.playerIds i
                · rw [hpw] at hpid
                  rw [Engine.scoreHole_invalid_wolf g i st r hres hrt hlw hpid]
                  exact ⟨_, rfl, fun q => ⟨by simp [Engine.notScoredEntry],
                    by simp [Engine.notScoredEntry], by simp [Engine.notScoredEntry]⟩⟩
                · have hteamnd : ([wolfIdForHole g.playerIds i, p]).Nodup :=
                    List.nodup_cons.2 ⟨by simpa using fun he => hpw he.symm,
                      List.nodup_singleton p⟩
                  have hotnd : ((rotatedOrderForHole g.playerIds i).filter
                      (fun pid =>
                        !([wolfIdForHole g.playerIds i, p]).contains pid)).Nodup :=
                    hordnd.filter _
                  have hdisj : ∀ q, q ∈ [wolfIdForHole g.playerIds i, p] →
                      q ∉ (rotatedOrderForHole g.playerIds i).filter
                        (fun pid =>
                          !([wolfIdForHole g.playerIds i, p]).contains pid) :=
                    fun q hq hmem => not_mem_of_mem_filter_not_contains hmem hq
                  rw [Engine.scoreHole_team g i st r p hres hrt hlw hpid hpw]
                  split
                  · obtain ⟨-, hperm, ht, hw, hl⟩ := Engine.settleHole_spec st i r
                      (Engine.wagerUnitsFor g (g.holes.getD i {}) st.carry)
                      (if g.options.pushTies then 0 else st.carry)
                      [wolfIdForHole g.playerIds i, p]
                      ((rotatedOrderForHole g.playerIds i).filter
                        (fun pid => !([wolfIdForHole g.playerIds i, p]).contains pid))
                      "Wolf Pack wins" hteamnd hotnd hdisj
                    exact ⟨_, hperm, fun q => ⟨ht q, hw q, hl q⟩⟩
                  · obtain ⟨-, hperm, ht, hw, hl⟩ := Engine.settleHole_spec st i r
                      (Engine.wagerUnitsFor g (g.holes.getD i {}) st.carry)
                      (if g.options.pushTies then 0 else st.carry)
                      ((rotatedOrderForHole g.playerIds i).filter
                        (fun pid => !([wolfIdForHole g.playerIds i, p]).contains pid))
                      [wolfIdForHole g.playerIds i, p]
                      "Little Piggies win" hotnd hteamnd
                      (fun q hq hq2 => hdisj q hq2 hq)
                    exact ⟨_, hperm, fun q => ⟨ht q, hw q, hl q⟩⟩

/-- C10: for every game input with distinct player ids and every player key,
`net = won − lost`, `won` and `lost` are non-negative, `won` is exactly the
sum of the player's positive per-round deltas, and `lost` is exactly the sum
of the magnitudes of the player's negative per-round deltas. -/
theorem c10_net_won_lost (g : Game) (hnodup : g.playerIds.Nodup) :
    ∀ q, (Engine.computeScores g).totals q =
        (Engine.computeScores g).won q - (Engine.computeScores g).lost q ∧
      0 ≤ (Engine.computeScores g).won q ∧
      0 ≤ (Engine.computeScores g).lost q ∧
      (Engine.computeScores g).won q =
        ((Engine.computeScores g).perHole.map
          (fun e => if 0 < e.delta q then e.delta q else 0)).sum ∧
      (Engine.computeScores g).lost q =
        ((Engine.computeScores g).perHole.map
          (fun e => if e.delta q < 0 then -(e.delta q) else 0)).sum := by
  have main : ∀ k, ∀ q, (Engine.runHoles g k).totals q =
        (Engine.runHoles g k).won q - (Engine.runHoles g k).lost q ∧
      0 ≤ (Engine.runHoles g k).won q ∧
      0 ≤ (Engine.runHoles g k).lost q ∧
      (Engine.runHoles g k).won q =
        ((Engine.runHoles g k).perHole.map
          (fun e => if 0 < e.delta q then e.delta q else 0)).sum ∧
      (Engine.runHoles g k).lost q =
        ((Engine.runHoles g k).perHole.map
          (fun e => if e.delta q < 0 then -(e.delta q) else 0)).sum := by
    intro k
    induction k with
    | zero =>
        intro q
        exact ⟨rfl, le_refl 0, le_refl 0, rfl, rfl⟩
    | succ n ih =>
        intro q
        obtain ⟨e, he, hq⟩ := scoreHole_accounting_step g n (Engine.runHoles g n) hnodup
        obtain ⟨ht, hw, hl⟩ := hq q
        obtain ⟨iht, ihw0, ihl0, ihw, ihl⟩ := ih q
        have hstep : Engine.runHoles g (n + 1) =
            Engine.scoreHole g n (Engine.runHoles g n) := rfl
        rw [hstep]
        have hpos : 0 ≤ (if 0 < e.delta q then e.delta q else 0) := by
          split <;> omega
        have hneg : 0 ≤ (if e.delta q < 0 then -(e.delta q) else 0) := by
          split <;> omega
        refine ⟨?_, ?_, ?_, ?_, ?_⟩
        · rw [ht, hw, hl, iht]
          split_ifs <;> omega
        · rw [hw]
          omega
        · rw [hl]
          omega
        · rw [hw, he, List.map_append, List.sum_append, ihw]
          simp
        · rw [hl, he, List.map_append, List.sum_append, ihl]
          simp
  exact main g.holeCount

/-- Witness for C10 at the concrete team-win game. -/
theorem c10_net_won_lost_witness :
    gameTeamWin.playerIds.Nodup ∧
    (∀ q, (Engine.computeScores gameTeamWin).totals q =
        (Engine.computeScores gameTeamWin).won q -
          (Engine.computeScores gameTeamWin).lost q ∧
      0 ≤ (Engine.computeScores gameTeamWin).won q ∧
      0 ≤ (Engine.computeScores gameTeamWin).lost q ∧
      (Engine.computeScores gameTeamWin).won q =
        ((Engine.computeScores gameTeamWin).perHole.map
          (fun e => if 0 < e.delta q then e.delta q else 0)).sum ∧
      (Engine.computeScores gameTeamWin).lost q =
        ((Engine.computeScores gameTeamWin).perHole.map
          (fun e => if e.delta q < 0 then -(e.delta q) else 0)).sum) :=
  ⟨by decide, c10_net_won_lost gameTeamWin (by decide)⟩

end Wolf
